import Mathlib

/-!
Verification development for the circuit-graph core of the CircuitAR
repository (CircuitGraphManager.ts together with Component.ts).

The definitions below are a shallow embedding of the TypeScript source:
JS string-keyed objects and Maps become association lists, JS Sets become
membership lists, and the recursive depth-first search of
CircuitGraphManager.findCyclesDFS is rendered as an explicit-stack
traversal driven by a fuel counter (every recursive call of the source
pushes one frame; fuel only bounds the number of elementary steps and is
chosen amply in findCycles).  Line references are to
CircuitGraphManager.ts.
-/

namespace Circuit

/-- Component.ts: a registered script instance; `name` is the SceneObject
name it is keyed by, `type` the functional type string set in the
Inspector ("Battery", "Switch", "LED", ...). -/
structure Comp where
  name : String
  type : String
deriving DecidableEq, Repr

/-- The mutable fields of CircuitGraphManager (lines 49-61):
`components` (list of names), `connections` (pairs of names),
`startConnection`, the `powered` map, the `switchStatus` map and the
`componentInstances` map, the latter three as association lists. -/
structure Manager where
  components : List String
  connections : List (String × String)
  startConnection : Option (String × String)
  powered : List (String × Bool)
  switchStatus : List (String × Bool)
  componentInstances : List (String × Comp)
deriving DecidableEq, Repr

/-- JS object / Map assignment `o[k] = v` (or `Map.set`): replace the
value at an existing key in place, otherwise append the new entry. -/
def assocSet {β : Type} : List (String × β) → String → β → List (String × β)
  | [], k, v => [(k, v)]
  | (k', v') :: rest, k, v =>
      if k' = k then (k, v) :: rest else (k', v') :: assocSet rest k v

/-- JS `Set.add`: insert unless already a member (insertion order kept). -/
def setAdd (s : List String) (x : String) : List String :=
  if x ∈ s then s else s ++ [x]

/-- `addComponent` (lines 258-266): push the name on `components` unless
`components.includes(componentName)`. -/
def addComponent (l : List String) (name : String) : List String :=
  if name ∈ l then l else l ++ [name]

/-- The order-independent connection test of `addConnection` (lines
134-137): `(conn[0]===a && conn[1]===b) || (conn[0]===b && conn[1]===a)`. -/
def connMatches (a b : String) (c : String × String) : Bool :=
  (c.1 == a && c.2 == b) || (c.1 == b && c.2 == a)

/-- The endpoint test of `removeConnections` (line 369):
`conn[0] === componentA || conn[1] === componentA`. -/
def touches (a : String) (c : String × String) : Bool :=
  c.1 == a || c.2 == a

/-- `getNeighbors` (lines 243-253): walk the connection list in order,
collecting the opposite endpoint of every connection incident to the
name (first endpoint checked first, mirroring the else-if). -/
def getNeighbors (conns : List (String × String)) (name : String) : List String :=
  conns.filterMap fun c =>
    if c.1 == name then some c.2
    else if c.2 == name then some c.1
    else none

/-- Lexicographic strict order on character lists, by code point (the
order JS default string sort uses for the scene names at hand). -/
def charsLt : List Char → List Char → Bool
  | [], [] => false
  | [], _ :: _ => true
  | _ :: _, [] => false
  | a :: as, b :: bs =>
      if a.toNat < b.toNat then true
      else if b.toNat < a.toNat then false
      else charsLt as bs

/-- Strict lexicographic order on strings (see `charsLt`). -/
def strLt (a b : String) : Bool :=
  charsLt a.data b.data

/-- Insert a string into an already ascending list (helper for
`sortStrings`). -/
def insertSorted (s : String) : List String → List String
  | [] => [s]
  | t :: ts => if strLt t s then t :: insertSorted s ts else s :: t :: ts

/-- JS `Array.sort()` with the default comparator on strings: sort
lexicographically ascending (line 223 sorts a copy of the cycle). -/
def sortStrings (l : List String) : List String :=
  l.foldr insertSorted []

/-- The canonical key of a cycle (line 223):
`[...cycle].sort().join(',')`. -/
def normKey (c : List String) : String :=
  String.intercalate "," (sortStrings c)

/-- State threaded through the depth-first search of `findCycles`
(lines 169-236): the `visited` set, the `recursionStack` set, the
`parentMap` and the accumulated `cycles`. -/
structure DfsSt where
  visited : List String
  recStack : List String
  parentMap : List (String × String)
  cycles : List (List String)
deriving DecidableEq, Repr

/-- The cycle-reconstruction loop of `findCyclesDFS` (lines 215-219):
`while (currentNode && currentNode !== neighbor) { cycle.unshift(currentNode);
currentNode = parentMap.get(currentNode) ?? null }`.  Returns the final
`currentNode` and the accumulated (front-grown) list.  Fuel bounds the
walk; the source's parent map is a forest so the loop always ends. -/
def walkParents (pm : List (String × String)) :
    Nat → Option String → String → List String → Option String × List String
  | 0, cur, _, acc => (cur, acc)
  | _ + 1, none, _, acc => (none, acc)
  | fuel + 1, some c, tgt, acc =>
      if c = tgt then (some c, acc)
      else walkParents pm fuel (List.lookup c pm) tgt (c :: acc)

/-- The body of the `recursionStack.has(neighbor)` branch of
`findCyclesDFS` (lines 212-227): rebuild the cycle from the parent map,
prepend the discovered ancestor, and push it unless a cycle with the
same normalized (sorted, comma-joined) key was already collected. -/
def recordCycle (node n : String) (st : DfsSt) : DfsSt :=
  let w := walkParents st.parentMap (st.parentMap.length + 1) (some node) n []
  match w.1 with
  | some c =>
      if c = n then
        let cyc := n :: w.2
        if st.cycles.any (fun d => normKey d == normKey cyc) then st
        else { st with cycles := st.cycles ++ [cyc] }
      else st
  | none => st

/-- `findCyclesDFS` (lines 194-236) as an explicit-stack traversal, the
worklist rendering of the recursion (each stack frame is a node together
with its not-yet-processed neighbors).  Entering a node adds it to
`visited` and `recursionStack` (lines 201-202, applied when the frame is
pushed); exhausting a frame removes the node from the recursion stack
(line 235).  Per neighbor, in source order: skip the DFS parent (lines
208-210), record a cycle on a back-edge into the recursion stack (lines
212-227), recurse into an unvisited neighbor after setting its parent
(lines 229-232), otherwise skip. -/
def dfsStep (conns : List (String × String)) :
    Nat → List (String × List String) → DfsSt → DfsSt
  | 0, _, st => st
  | _ + 1, [], st => st
  | fuel + 1, (node, []) :: rest, st =>
      dfsStep conns fuel rest { st with recStack := st.recStack.erase node }
  | fuel + 1, (node, n :: ns) :: rest, st =>
      if List.lookup node st.parentMap = some n then
        dfsStep conns fuel ((node, ns) :: rest) st
      else if n ∈ st.recStack then
        dfsStep conns fuel ((node, ns) :: rest) (recordCycle node n st)
      else if n ∈ st.visited then
        dfsStep conns fuel ((node, ns) :: rest) st
      else
        dfsStep conns fuel ((n, getNeighbors conns n) :: (node, ns) :: rest)
          { st with
              parentMap := assocSet st.parentMap n node,
              visited := setAdd st.visited n,
              recStack := setAdd st.recStack n }

/-- The root loop of `findCycles` (lines 178-182): start a DFS from every
component not yet visited. -/
def runRoots (conns : List (String × String)) (fuel : Nat) :
    List String → DfsSt → DfsSt
  | [], st => st
  | r :: rs, st =>
      let st' :=
        if r ∈ st.visited then st
        else
          dfsStep conns fuel [(r, getNeighbors conns r)]
            { st with visited := setAdd st.visited r,
                      recStack := setAdd st.recStack r }
      runRoots conns fuel rs st'

/-- `findCycles` (lines 169-184).  The fuel is an upper bound on the
number of elementary DFS steps (every node is visited at most once and
every connection contributes at most two neighbor entries), so the
traversal always runs to completion exactly as the recursive source. -/
def findCycles (m : Manager) : List (List String) :=
  let fuel := (m.components.length + 2 * m.connections.length + 1) *
    (m.connections.length + 2)
  (runRoots m.connections fuel m.components
    { visited := [], recStack := [], parentMap := [], cycles := [] }).cycles

/-- The first pass of `updatePower` over one cycle (lines 299-315):
fold over the cycle's names, skipping names with no registered instance;
`hasBattery` is or-ed in (line 304-305) while `cycleBrokenBySwitch` is
overwritten by the negated stored status of each Switch encountered
(line 313), exactly as the assignment in the source. -/
def cycleFlags (insts : List (String × Comp)) (sw : List (String × Bool))
    (cycle : List String) : Bool × Bool :=
  cycle.foldl
    (fun fl name =>
      match List.lookup name insts with
      | none => fl
      | some c =>
          (fl.1 || (c.type == "Battery"),
           if c.type == "Switch" then !((List.lookup c.name sw).getD false)
           else fl.2))
    (false, false)

/-- The set `componentsInPoweredCycles` of `updatePower` (lines 292-326):
for every cycle whose flags say battery-and-not-broken, add the cycle's
names that still have a registered instance (line 321). -/
def poweredSet (insts : List (String × Comp)) (sw : List (String × Bool))
    (cycles : List (List String)) : List String :=
  cycles.foldl
    (fun s cyc =>
      let fl := cycleFlags insts sw cyc
      if fl.1 && !fl.2 then
        cyc.foldl
          (fun s' name =>
            if (List.lookup name insts).isSome then setAdd s' name else s')
          s
      else s)
    []

/-- `updatePower` (lines 290-341): replace the whole `powered` map with an
entry for every name in `components`, true exactly for members of
`componentsInPoweredCycles`. -/
def updatePower (m : Manager) (cycles : List (List String)) : Manager :=
  let ps := poweredSet m.componentInstances m.switchStatus cycles
  { m with powered := m.components.map fun n => (n, ps.contains n) }

/-- The recompute step `this.updatePower(this.findCycles())` that the
mutating operations run. -/
def recompute (m : Manager) : Manager :=
  updatePower m (findCycles m)

/-- Reading `powered[id]` as a boolean (JS truthiness: a missing entry is
falsy), the `getPowered` view of the spec. -/
def getPowered (m : Manager) (id : String) : Bool :=
  (List.lookup id m.powered).getD false

/-- `registerComponent` (lines 77-100): invalid instances and empty
SceneObject names are rejected (lines 85-93, an empty name is falsy);
otherwise, if the name is not yet in `componentInstances`, store the
instance and add the name to `components`. -/
def registerComponent (m : Manager) (c : Comp) : Manager :=
  if c.name = "" then m
  else if (List.lookup c.name m.componentInstances).isSome then m
  else { m with
          componentInstances := m.componentInstances ++ [(c.name, c)],
          components := addComponent m.components c.name }

/-- `removeConnections` (lines 361-379): filter out every connection with
the given endpoint; only when the list shrank, recompute power. -/
def removeConnections (m : Manager) (a : String) : Manager :=
  let newConns := m.connections.filter fun c => !(touches a c)
  let m' := { m with connections := newConns }
  if newConns.length < m.connections.length then recompute m' else m'

/-- `removeConnection` (lines 381-403): filter out the connection equal to
the unordered pair; only when the list shrank, recompute power. -/
def removeConnection (m : Manager) (a b : String) : Manager :=
  let newConns := m.connections.filter fun c => !(connMatches a b c)
  let m' := { m with connections := newConns }
  if newConns.length < m.connections.length then recompute m' else m'

/-- `unregisterComponent` (lines 106-116): only if the name has a
registered instance, delete the instance, splice the first occurrence of
the name out of `components`, and clean up via `removeConnections`. -/
def unregisterComponent (m : Manager) (name : String) : Manager :=
  if (List.lookup name m.componentInstances).isSome then
    let m' := { m with
        componentInstances := m.componentInstances.eraseP fun p => p.1 == name,
        components := m.components.erase name }
    removeConnections m' name
  else m

/-- `addConnection` (lines 119-151): both names are added to `components`
first (lines 127-128); a self connection then returns early (lines
130-132) with no recompute; otherwise the connection is inserted unless
an equivalent one exists, `startConnection` is set if still null, and
power is recomputed from the new cycle list (lines 149-150). -/
def addConnection (m : Manager) (a b : String) : Manager :=
  let m₁ := { m with components := addComponent (addComponent m.components a) b }
  if a = b then m₁
  else
    let m₂ :=
      if m₁.connections.any (connMatches a b) then m₁
      else
        let m' := { m₁ with connections := m₁.connections ++ [(a, b)] }
        match m'.startConnection with
        | none => { m' with startConnection := some (a, b) }
        | some _ => m'
    recompute m₂

/-- `update` (lines 346-359): store the toggled state in `switchStatus`
(unconditionally, whether or not the name was ever registered) and
recompute power (the `if (this.connections)` guard is always true for
an array, empty or not). -/
def update (m : Manager) (name : String) (v : Bool) : Manager :=
  let m' := { m with switchStatus := assocSet m.switchStatus name v }
  recompute m'

/-- `resetGraph` (lines 156-163): clear components, connections,
startConnection, the instance map and the powered map.  `switchStatus`
is not touched by the source. -/
def resetGraph (m : Manager) : Manager :=
  { components := [],
    connections := [],
    startConnection := none,
    powered := [],
    switchStatus := m.switchStatus,
    componentInstances := [] }

/-- The public mutating operations of the manager (spec section 6). -/
inductive Op where
  | register (c : Comp)
  | unregister (name : String)
  | addConn (a b : String)
  | removeConn (a b : String)
  | removeConnsOf (name : String)
  | setSwitch (name : String) (v : Bool)
  | reset
deriving DecidableEq, Repr

/-- Apply one public operation. -/
def applyOp (m : Manager) : Op → Manager
  | Op.register c => registerComponent m c
  | Op.unregister name => unregisterComponent m name
  | Op.addConn a b => addConnection m a b
  | Op.removeConn a b => removeConnection m a b
  | Op.removeConnsOf name => removeConnections m name
  | Op.setSwitch name v => update m name v
  | Op.reset => resetGraph m

/-- The manager state at script start: every field empty (lines 49-61). -/
def initManager : Manager :=
  { components := [],
    connections := [],
    startConnection := none,
    powered := [],
    switchStatus := [],
    componentInstances := [] }

/-- Run a sequence of public operations from the initial state. -/
def runOps (ops : List Op) : Manager :=
  ops.foldl applyOp initManager

/-! Spec-side comparator definitions, used to state the refinement claim
about `findCycles` against the specification's own notion of a cycle. -/

/-- Spec section 3: two identifiers are connected when some connection
holds them as an unordered pair. -/
def connectedB (conns : List (String × String)) (x y : String) : Bool :=
  conns.any fun c => (c.1 == x && c.2 == y) || (c.1 == y && c.2 == x)

/-- All entries of the list are distinct. -/
def allDistinct : List String → Bool
  | [] => true
  | x :: xs => !(xs.contains x) && allDistinct xs

/-- Consecutive pairs of a closed walk: each entry with its successor,
and the last entry with the first. -/
def cycleEdgePairs : List String → List (String × String)
  | [] => []
  | x :: xs => (x :: xs).zip (xs ++ [x])

/-- Spec section 3, written from the spec's words: a Cycle is an ordered
sequence of at least three distinct component identifiers in which
consecutive identifiers, and the last-to-first pair, are connected. -/
def isSimpleCycleSpec (conns : List (String × String)) (l : List String) : Bool :=
  decide (3 ≤ l.length) && allDistinct l &&
    (cycleEdgePairs l).all fun p => connectedB conns p.1 p.2

/-! Invariant predicates used by the theorems. -/

/-- No connection is a self-edge. -/
def selfFree (l : List (String × String)) : Prop :=
  ∀ c ∈ l, c.1 ≠ c.2

/-- Two connections are equal as unordered pairs. -/
def sameConn (c d : String × String) : Prop :=
  (c.1 = d.1 ∧ c.2 = d.2) ∨ (c.1 = d.2 ∧ c.2 = d.1)

/-- No two connections coincide as unordered pairs. -/
def dupFree (l : List (String × String)) : Prop :=
  l.Pairwise fun c d => ¬ sameConn c d

/-- The identifier occurs as an endpoint of some connection. -/
def isEndpoint (conns : List (String × String)) (x : String) : Prop :=
  ∃ c ∈ conns, c.1 = x ∨ c.2 = x

/-- Every parent-map entry relates two connection endpoints. -/
def pmOK (conns : List (String × String)) (pm : List (String × String)) : Prop :=
  ∀ p ∈ pm, isEndpoint conns p.1 ∧ isEndpoint conns p.2

/-- Every identifier of every collected cycle is a connection endpoint. -/
def cyclesOK (conns : List (String × String)) (cycles : List (List String)) : Prop :=
  ∀ cyc ∈ cycles, ∀ x ∈ cyc, isEndpoint conns x

/-- Every pending neighbor in every DFS frame is an endpoint, and a frame
with pending neighbors has an endpoint as its node. -/
def stackOK (conns : List (String × String))
    (stack : List (String × List String)) : Prop :=
  ∀ f ∈ stack, (∀ x ∈ f.2, isEndpoint conns x) ∧
    (f.2 ≠ [] → isEndpoint conns f.1)

/-- The collected cycles have pairwise distinct normalized keys. -/
def keysOK (cycles : List (List String)) : Prop :=
  cycles.Pairwise fun c d => normKey c ≠ normKey d

/-- The operations after which the source recomputes the power map: a
non-self `addConnection`, every switch update and `resetGraph`
unconditionally, the removal operations only when a matching connection
exists, and `unregisterComponent` only for an instance-registered name
that has at least one connection.  `registerComponent` never recomputes. -/
def refreshes (m : Manager) : Op → Prop
  | Op.register _ => False
  | Op.unregister n =>
      (List.lookup n m.componentInstances).isSome = true ∧
        m.connections.any (touches n) = true
  | Op.addConn a b => a ≠ b
  | Op.removeConn a b => m.connections.any (connMatches a b) = true
  | Op.removeConnsOf a => m.connections.any (touches a) = true
  | Op.setSwitch _ _ => True
  | Op.reset => True

/-! Concrete inputs used by evaluation theorems, witnesses and
counterexamples. -/

/-- A triangle b - s - t - b: a battery `b`, an open switch `s`
(stored state false) and a closed switch `t` (stored state true), all
three instance-registered. -/
def M1 : Manager :=
  { components := ["b", "s", "t"],
    connections := [("b", "s"), ("s", "t"), ("t", "b")],
    startConnection := none,
    powered := [],
    switchStatus := [("s", false), ("t", true)],
    componentInstances :=
      [("b", { name := "b", type := "Battery" }),
       ("s", { name := "s", type := "Switch" }),
       ("t", { name := "t", type := "Switch" })] }

/-- Two triangles sharing the edge b - c: the graph has three simple
cycles, among them the four-cycle a, b, d, c. -/
def M2 : Manager :=
  { components := ["a", "b", "c", "d"],
    connections := [("a", "b"), ("b", "c"), ("c", "a"), ("b", "d"), ("d", "c")],
    startConnection := none,
    powered := [],
    switchStatus := [],
    componentInstances := [] }

/-- Register three components, connect two of them, then unregister the
connection-free third one. -/
def ops3 : List Op :=
  [Op.register { name := "c", type := "Wire" },
   Op.register { name := "a", type := "Wire" },
   Op.register { name := "b", type := "Wire" },
   Op.addConn "a" "b",
   Op.unregister "c"]

/-- Two registered, connected components. -/
def mW : Manager :=
  runOps [Op.register { name := "a", type := "Wire" },
          Op.register { name := "b", type := "Wire" },
          Op.addConn "a" "b"]

/-- The state `addConnection` (with distinct endpoints) passes to the
final recompute: components extended, the connection inserted unless an
equivalent one exists, `startConnection` set if still null.  Used only
to phrase proofs about `addConnection`. -/
def addConnMid (m : Manager) (a b : String) : Manager :=
  let m₁ := { m with components := addComponent (addComponent m.components a) b }
  if m₁.connections.any (connMatches a b) then m₁
  else
    let m' := { m₁ with connections := m₁.connections ++ [(a, b)] }
    match m'.startConnection with
    | none => { m' with startConnection := some (a, b) }
    | some _ => m'

/-! ### Basic lemmas about the embedding -/

@[simp] theorem updatePower_components (m : Manager) (cs : List (List String)) :
    (updatePower m cs).components = m.components := rfl

@[simp] theorem updatePower_connections (m : Manager) (cs : List (List String)) :
    (updatePower m cs).connections = m.connections := rfl

@[simp] theorem updatePower_switchStatus (m : Manager) (cs : List (List String)) :
    (updatePower m cs).switchStatus = m.switchStatus := rfl

@[simp] theorem updatePower_componentInstances (m : Manager) (cs : List (List String)) :
    (updatePower m cs).componentInstances = m.componentInstances := rfl

@[simp] theorem updatePower_startConnection (m : Manager) (cs : List (List String)) :
    (updatePower m cs).startConnection = m.startConnection := rfl

@[simp] theorem recompute_components (m : Manager) :
    (recompute m).components = m.components := rfl

@[simp] theorem recompute_connections (m : Manager) :
    (recompute m).connections = m.connections := rfl

@[simp] theorem recompute_switchStatus (m : Manager) :
    (recompute m).switchStatus = m.switchStatus := rfl

@[simp] theorem recompute_componentInstances (m : Manager) :
    (recompute m).componentInstances = m.componentInstances := rfl

/-- Recomputing twice changes nothing beyond recomputing once: the power
map reads only the graph fields, which recomputation preserves. -/
theorem recompute_recompute (m : Manager) : recompute (recompute m) = recompute m := rfl

theorem mem_addComponent_self (l : List String) (x : String) :
    x ∈ addComponent l x := by
  unfold addComponent
  split
  · assumption
  · exact List.mem_append_right _ (List.mem_singleton.mpr rfl)

theorem addComponent_of_mem {l : List String} {x : String} (h : x ∈ l) :
    addComponent l x = l := by
  unfold addComponent
  exact if_pos h

theorem mem_addComponent {l : List String} {x : String} (y : String) (h : x ∈ l) :
    x ∈ addComponent l y := by
  unfold addComponent
  split
  · exact h
  · exact List.mem_append_left _ h

theorem addComponent_addComponent (l : List String) (x : String) :
    addComponent (addComponent l x) x = addComponent l x :=
  addComponent_of_mem (mem_addComponent_self l x)

/-! ### Claim theorems -/

/-- C1: evaluating `updatePower` at the failing input.  In the triangle
`M1` the single cycle found is b, s, t in that traversal order; `s` is a
switch whose stored state is open (false), yet `s` (and the whole
cycle) is marked energized, because the later closed switch `t`
overwrites the broken flag.  Scanning the same cycle with `s` last
instead leaves everything unpowered: the outcome depends on the
traversal order, which the claim (and the source's own comments about
tracking whether a switch broke the cycle) say must not happen. -/
theorem C1_switch_order_bug :
    findCycles M1 = [["b", "s", "t"]] ∧
    List.lookup "s" M1.switchStatus = some false ∧
    getPowered (updatePower M1 (findCycles M1)) "s" = true ∧
    getPowered (updatePower M1 (findCycles M1)) "b" = true ∧
    getPowered (updatePower M1 [["b", "t", "s"]]) "s" = false := by decide

/-- C2 counterexample: in the shared-edge double triangle `M2` the list
a, b, d, c is a simple cycle in the spec's sense (at least three
distinct identifiers, consecutively connected, closed), but no cycle
returned by `findCycles` has its identifier set (compared via the
sorted identifier lists, and all identifiers are distinct), so not
every simple cycle's component set is returned. -/
theorem C2_counterexample :
    isSimpleCycleSpec M2.connections ["a", "b", "d", "c"] = true ∧
    (findCycles M2).all
      (fun cyc => !(sortStrings cyc == sortStrings ["a", "b", "d", "c"])) = true := by
  decide

/-- C3 counterexample: after registering c, a, b, connecting a - b and
then unregistering the connection-free component c, the powered map
still holds an entry for the unregistered c and differs from what a
recompute over the resulting state would produce (no recompute ran,
because `removeConnections` removed nothing). -/
theorem C3_counterexample :
    "c" ∉ (runOps ops3).components ∧
    List.lookup "c" (runOps ops3).powered = some false ∧
    (runOps ops3).powered ≠ (recompute (runOps ops3)).powered := by decide

/-- C4 counterexample: `addConnection(x, x)` on the initial state is not
a complete no-op: the components list gains the entry x (the source
adds both endpoints before the self-connection early return). -/
theorem C4_counterexample :
    (addConnection initManager "x" "x").components ≠ initManager.components := by
  decide

/-- C5 counterexample: `resetGraph` does not clear the switch-state map:
after storing a switch state and resetting, `switchStatus` still holds
the entry. -/
theorem C5_counterexample :
    (resetGraph (update initManager "s" true)).switchStatus = [("s", true)] ∧
    (resetGraph (update initManager "s" true)).switchStatus ≠ [] := by decide

/-- C6 counterexample: for an identifier auto-created by `addConnection`
(no registered instance), `unregisterComponent` is a no-op: a remains
in the components list and its connection remains. -/
theorem C6_counterexample :
    "a" ∈ (unregisterComponent (addConnection initManager "a" "b") "a").components ∧
    (unregisterComponent (addConnection initManager "a" "b") "a").connections
      = [("a", "b")] := by decide

/-- C9 counterexample: `update` on a never-registered identifier is not a
no-op: it stores the switch state, changing the switch-state map. -/
theorem C9_counterexample :
    (update initManager "g" true).switchStatus ≠ initManager.switchStatus := by
  decide

theorem length_filter_lt_of_any {α : Type} {p : α → Bool} {l : List α}
    (h : l.any p = true) :
    (l.filter fun x => !(p x)).length < l.length := by
  induction l with
  | nil => simp at h
  | cons x xs ih =>
      by_cases hx : p x = true
      · have : (x :: xs).filter (fun x => !(p x)) = xs.filter fun x => !(p x) := by
          simp [List.filter_cons, hx]
        rw [this]
        exact Nat.lt_succ_of_le (List.length_filter_le _ _)
      · simp only [List.any_cons, Bool.or_eq_true] at h
        have h' : xs.any p = true := h.resolve_left hx
        have : (x :: xs).filter (fun x => !(p x)) = x :: xs.filter fun x => !(p x) := by
          simp [List.filter_cons, hx]
        rw [this]
        exact Nat.succ_lt_succ (ih h')

theorem addConnection_eq_recompute {a b : String} (m : Manager) (hab : a ≠ b) :
    addConnection m a b = recompute (addConnMid m a b) := by
  unfold addConnection addConnMid
  rw [if_neg hab]

theorem left_mem_addConnMid (m : Manager) (a b : String) :
    a ∈ (addConnMid m a b).components := by
  unfold addConnMid
  dsimp only
  split
  · exact mem_addComponent _ (mem_addComponent_self _ _)
  · split
    · exact mem_addComponent _ (mem_addComponent_self _ _)
    · exact mem_addComponent _ (mem_addComponent_self _ _)

theorem right_mem_addConnMid (m : Manager) (a b : String) :
    b ∈ (addConnMid m a b).components := by
  unfold addConnMid
  dsimp only
  split
  · exact mem_addComponent_self _ _
  · split
    · exact mem_addComponent_self _ _
    · exact mem_addComponent_self _ _

theorem any_connMatches_addConnMid (m : Manager) (a b : String) :
    (addConnMid m a b).connections.any (connMatches a b) = true := by
  unfold addConnMid
  dsimp only
  split
  · assumption
  · split
    · simp [List.any_append, connMatches]
    · simp [List.any_append, connMatches]

/-- When both endpoints are already components and an equivalent
connection already exists, the graph-edit part of `addConnection` leaves
the state unchanged. -/
theorem addConnMid_of_present (M : Manager) (a b : String)
    (ha : a ∈ M.components) (hb : b ∈ M.components)
    (hc : M.connections.any (connMatches a b) = true) :
    addConnMid M a b = M := by
  unfold addConnMid
  dsimp only
  rw [if_pos hc, addComponent_of_mem ha, addComponent_of_mem hb]

/-- C4 amended: `addConnection(a, a)` leaves connections, powered and all
other fields unchanged and only ensures a is present in the components
list (appending it when absent; when a was already present the whole
state is unchanged).  No recompute runs. -/
theorem C4_amended (m : Manager) (a : String) :
    addConnection m a a = { m with components := addComponent m.components a } := by
  unfold addConnection
  simp [addComponent_addComponent]

/-- C5 amended: `resetGraph` clears components, connections, powered,
startConnection and the instance map, but leaves the switch-state map
exactly as it was. -/
theorem C5_amended (m : Manager) :
    (resetGraph m).components = [] ∧ (resetGraph m).connections = [] ∧
    (resetGraph m).powered = [] ∧ (resetGraph m).startConnection = none ∧
    (resetGraph m).componentInstances = [] ∧
    (resetGraph m).switchStatus = m.switchStatus :=
  ⟨rfl, rfl, rfl, rfl, rfl, rfl⟩

/-- C9 amended: `update` on a never-registered identifier raises no
exception and leaves components, connections and the instance map
unchanged; it stores the value in the switch-state map (tolerating
out-of-order setup) and recomputes the powered map over the unchanged
graph, so powered agrees with a recompute over the resulting state. -/
theorem C9_amended (m : Manager) (id : String) (v : Bool)
    (_h : List.lookup id m.componentInstances = none) :
    (update m id v).components = m.components ∧
    (update m id v).connections = m.connections ∧
    (update m id v).componentInstances = m.componentInstances ∧
    (update m id v).switchStatus = assocSet m.switchStatus id v ∧
    (update m id v).powered = (recompute (update m id v)).powered := by
  refine ⟨rfl, rfl, rfl, rfl, ?_⟩
  have hu : update m id v
      = recompute { m with switchStatus := assocSet m.switchStatus id v } := rfl
  rw [hu, recompute_recompute]

/-- C9 amended, witness at a concrete never-registered identifier. -/
theorem C9_amended_witness :
    (update initManager "g" true).components = initManager.components ∧
    (update initManager "g" true).connections = initManager.connections ∧
    (update initManager "g" true).componentInstances = initManager.componentInstances ∧
    (update initManager "g" true).switchStatus
      = assocSet initManager.switchStatus "g" true ∧
    (update initManager "g" true).powered
      = (recompute (update initManager "g" true)).powered :=
  C9_amended initManager "g" true rfl

/-- C3 amended: the powered map is consistent with a recompute over the
resulting state exactly after the operations that actually trigger the
source's recompute (`refreshes`): a non-self `addConnection`, every
switch update, `resetGraph`, the removal operations when a matching
connection existed, and `unregisterComponent` of an instance-registered
name with at least one connection.  After the remaining cases the
powered map is simply left at its previous value, so stale entries can
survive (see the counterexample). -/
theorem C3_amended (m : Manager) (op : Op) (h : refreshes m op) :
    (applyOp m op).powered = (recompute (applyOp m op)).powered := by
  cases op with
  | register c => exact h.elim
  | unregister n =>
      obtain ⟨h1, h2⟩ := h
      show (unregisterComponent m n).powered = (recompute (unregisterComponent m n)).powered
      unfold unregisterComponent
      rw [if_pos h1]
      unfold removeConnections
      dsimp only
      rw [if_pos (length_filter_lt_of_any h2)]
      rfl
  | addConn a b =>
      show (addConnection m a b).powered = (recompute (addConnection m a b)).powered
      rw [addConnection_eq_recompute m h]
      rfl
  | removeConn a b =>
      show (removeConnection m a b).powered = (recompute (removeConnection m a b)).powered
      unfold removeConnection
      dsimp only
      rw [if_pos (length_filter_lt_of_any h)]
      rfl
  | removeConnsOf nm =>
      show (removeConnections m nm).powered = (recompute (removeConnections m nm)).powered
      unfold removeConnections
      dsimp only
      rw [if_pos (length_filter_lt_of_any h)]
      rfl
  | setSwitch nm v => rfl
  | reset => rfl

/-- C3 amended, witness: a switch update always refreshes. -/
theorem C3_amended_witness :
    (applyOp initManager (Op.setSwitch "s" true)).powered
      = (recompute (applyOp initManager (Op.setSwitch "s" true))).powered :=
  C3_amended initManager (Op.setSwitch "s" true) trivial

/-- C7: `addConnection` with distinct endpoints is idempotent: the second
call finds both names present and the connection already existing, so
the graph is unchanged and the final recompute reproduces the same
powered map; the entire state after two calls equals the state after
one. -/
theorem C7_addConnection_idem (m : Manager) (a b : String) (hab : a ≠ b) :
    addConnection (addConnection m a b) a b = addConnection m a b := by
  rw [addConnection_eq_recompute m hab]
  rw [addConnection_eq_recompute (recompute (addConnMid m a b)) hab]
  have ha : a ∈ (recompute (addConnMid m a b)).components := by
    rw [recompute_components]
    exact left_mem_addConnMid m a b
  have hb : b ∈ (recompute (addConnMid m a b)).components := by
    rw [recompute_components]
    exact right_mem_addConnMid m a b
  have hc : (recompute (addConnMid m a b)).connections.any (connMatches a b) = true := by
    rw [recompute_connections]
    exact any_connMatches_addConnMid m a b
  rw [addConnMid_of_present (recompute (addConnMid m a b)) a b ha hb hc]
  rfl

/-- C7 witness at concrete distinct endpoints. -/
theorem C7_witness :
    addConnection (addConnection initManager "x" "y") "x" "y"
      = addConnection initManager "x" "y" :=
  C7_addConnection_idem initManager "x" "y" (by decide)

theorem mem_setAdd {s : List String} {x y : String} :
    y ∈ setAdd s x ↔ y ∈ s ∨ y = x := by
  unfold setAdd
  split
  · constructor
    · exact Or.inl
    · rintro (hy | rfl)
      · exact hy
      · assumption
  · simp

theorem not_mem_powerCycle_fold {insts : List (String × Comp)} {name : String}
    (h : List.lookup name insts = none) :
    ∀ (cyc : List String) (s : List String), name ∉ s →
      name ∉ cyc.foldl
        (fun s' nm => if (List.lookup nm insts).isSome then setAdd s' nm else s') s := by
  intro cyc
  induction cyc with
  | nil => exact fun s hs => hs
  | cons nm rest ih =>
      intro s hs
      apply ih
      dsimp only
      by_cases hi : (List.lookup nm insts).isSome = true
      · rw [if_pos hi]
        intro hmem
        rcases mem_setAdd.mp hmem with hmem' | rfl
        · exact hs hmem'
        · rw [h] at hi
          exact Bool.false_ne_true hi
      · rw [if_neg hi]
        exact hs

theorem not_mem_poweredSet {insts : List (String × Comp)} (sw : List (String × Bool))
    {name : String} (h : List.lookup name insts = none)
    (cycles : List (List String)) : name ∉ poweredSet insts sw cycles := by
  suffices H : ∀ (cs : List (List String)) (s : List String), name ∉ s →
      name ∉ cs.foldl
        (fun s cyc =>
          let fl := cycleFlags insts sw cyc
          if fl.1 && !fl.2 then
            cyc.foldl
              (fun s' nm => if (List.lookup nm insts).isSome then setAdd s' nm else s') s
          else s) s by
    exact H cycles [] (List.not_mem_nil name)
  intro cs
  induction cs with
  | nil => exact fun s hs => hs
  | cons cyc rest ih =>
      intro s hs
      apply ih
      dsimp only
      by_cases hq : ((cycleFlags insts sw cyc).1 && !(cycleFlags insts sw cyc).2) = true
      · rw [if_pos hq]
        exact not_mem_powerCycle_fold h cyc s hs
      · rw [if_neg hq]
        exact hs

theorem lookup_map_of_mem {l : List String} {k : String} (f : String → Bool)
    (h : k ∈ l) :
    List.lookup k (l.map fun n => (n, f n)) = some (f k) := by
  induction l with
  | nil => cases h
  | cons x xs ih =>
      by_cases hkx : k = x
      · subst hkx
        simp [List.lookup]
      · have hk : k ∈ xs := (List.mem_cons.mp h).resolve_left hkx
        have hbeq : (k == x) = false := beq_eq_false_iff_ne.mpr hkx
        simp [List.lookup, hbeq, ih hk]

theorem lookup_map_of_not_mem {l : List String} {k : String} (f : String → Bool)
    (h : k ∉ l) :
    List.lookup k (l.map fun n => (n, f n)) = none := by
  induction l with
  | nil => rfl
  | cons x xs ih =>
      have hkx : k ≠ x := fun e => h (e ▸ List.mem_cons_self x xs)
      have hk : k ∉ xs := fun hm => h (List.mem_cons_of_mem x hm)
      have hbeq : (k == x) = false := beq_eq_false_iff_ne.mpr hkx
      simp [List.lookup, hbeq, ih hk]

/-- C10: a component name that is in the components list but has no
registered instance (as auto-created connection endpoints are) always
receives a `false` entry from `updatePower`, whatever the cycle list:
the powered set only ever collects names whose instance lookup
succeeds. -/
theorem C10_phantom_never_powered (m : Manager) (cycles : List (List String))
    (name : String) (h1 : name ∈ m.components)
    (h2 : List.lookup name m.componentInstances = none) :
    List.lookup name (updatePower m cycles).powered = some false := by
  show List.lookup name
    (m.components.map fun n =>
      (n, (poweredSet m.componentInstances m.switchStatus cycles).contains n)) = some false
  rw [lookup_map_of_mem _ h1]
  have hnot := not_mem_poweredSet m.switchStatus h2 cycles
  have hfalse : (poweredSet m.componentInstances m.switchStatus cycles).contains name
      = false := by
    cases hc : (poweredSet m.componentInstances m.switchStatus cycles).contains name
    · rfl
    · exact absurd (List.mem_of_elem_eq_true hc) hnot
  rw [hfalse]

/-- C10 witness: both endpoints auto-created by `addConnection` (no
instances registered); the name a sits on the given cycle yet its
powered entry is false. -/
theorem C10_witness :
    List.lookup "a"
      (updatePower (addConnection initManager "a" "b") [["a", "b"]]).powered
      = some false :=
  C10_phantom_never_powered (addConnection initManager "a" "b") [["a", "b"]] "a"
    (by decide) (by decide)

theorem selfFree_of_sublist {l l' : List (String × String)} (h : List.Sublist l' l)
    (hl : selfFree l) : selfFree l' :=
  fun c hc => hl c (h.subset hc)

theorem dupFree_of_sublist {l l' : List (String × String)} (h : List.Sublist l' l)
    (hl : dupFree l) : dupFree l' :=
  List.Pairwise.sublist h hl

theorem selfFree_nil : selfFree [] := fun c hc => absurd hc (List.not_mem_nil c)

theorem dupFree_nil : dupFree [] := List.Pairwise.nil

theorem not_sameConn_of_connMatches_false {a b : String} {c : String × String}
    (h : connMatches a b c = false) : ¬ sameConn c (a, b) := by
  intro hs
  unfold connMatches at h
  unfold sameConn at hs
  simp only [Bool.or_eq_false_iff, Bool.and_eq_false_iff, beq_eq_false_iff_ne] at h
  rcases hs with ⟨h1, h2⟩ | ⟨h1, h2⟩
  · rcases h.1 with h' | h'
    · exact h' h1
    · exact h' h2
  · rcases h.2 with h' | h'
    · exact h' h1
    · exact h' h2

theorem connInv_addConnMid {m : Manager} {a b : String} (hab : a ≠ b)
    (h1 : selfFree m.connections) (h2 : dupFree m.connections) :
    selfFree (addConnMid m a b).connections ∧ dupFree (addConnMid m a b).connections := by
  unfold addConnMid
  dsimp only
  split
  · exact ⟨h1, h2⟩
  · next hex =>
      have hex' : m.connections.any (connMatches a b) = false :=
        Bool.eq_false_iff.mpr hex
      have hall : ∀ c ∈ m.connections, ¬ sameConn c (a, b) := by
        intro c hc
        exact not_sameConn_of_connMatches_false
          (Bool.eq_false_iff.mpr (List.any_eq_false.mp hex' c hc))
      have hself : selfFree (m.connections ++ [(a, b)]) := by
        intro c hc
        rcases List.mem_append.mp hc with hc' | hc'
        · exact h1 c hc'
        · rw [List.mem_singleton.mp hc']
          exact hab
      have hdup : dupFree (m.connections ++ [(a, b)]) := by
        rw [dupFree, List.pairwise_append]
        refine ⟨h2, List.pairwise_singleton _ _, ?_⟩
        intro c hc d hd
        rw [List.mem_singleton.mp hd]
        exact hall c hc
      split
      · exact ⟨hself, hdup⟩
      · exact ⟨hself, hdup⟩

theorem applyOp_connInv (m : Manager) (op : Op)
    (h1 : selfFree m.connections) (h2 : dupFree m.connections) :
    selfFree (applyOp m op).connections ∧ dupFree (applyOp m op).connections := by
  cases op with
  | register c =>
      show selfFree (registerComponent m c).connections ∧
        dupFree (registerComponent m c).connections
      unfold registerComponent
      split
      · exact ⟨h1, h2⟩
      · split
        · exact ⟨h1, h2⟩
        · exact ⟨h1, h2⟩
  | unregister n =>
      show selfFree (unregisterComponent m n).connections ∧
        dupFree (unregisterComponent m n).connections
      unfold unregisterComponent removeConnections
      dsimp only
      split
      · split
        · exact ⟨selfFree_of_sublist (List.filter_sublist _) h1,
            dupFree_of_sublist (List.filter_sublist _) h2⟩
        · exact ⟨selfFree_of_sublist (List.filter_sublist _) h1,
            dupFree_of_sublist (List.filter_sublist _) h2⟩
      · exact ⟨h1, h2⟩
  | addConn a b =>
      show selfFree (addConnection m a b).connections ∧
        dupFree (addConnection m a b).connections
      by_cases hab : a = b
      · subst hab
        unfold addConnection
        rw [if_pos rfl]
        exact ⟨h1, h2⟩
      · rw [addConnection_eq_recompute m hab, recompute_connections]
        exact connInv_addConnMid hab h1 h2
  | removeConn a b =>
      show selfFree (removeConnection m a b).connections ∧
        dupFree (removeConnection m a b).connections
      unfold removeConnection
      dsimp only
      split
      · exact ⟨selfFree_of_sublist (List.filter_sublist _) h1,
          dupFree_of_sublist (List.filter_sublist _) h2⟩
      · exact ⟨selfFree_of_sublist (List.filter_sublist _) h1,
          dupFree_of_sublist (List.filter_sublist _) h2⟩
  | removeConnsOf n =>
      show selfFree (removeConnections m n).connections ∧
        dupFree (removeConnections m n).connections
      unfold removeConnections
      dsimp only
      split
      · exact ⟨selfFree_of_sublist (List.filter_sublist _) h1,
          dupFree_of_sublist (List.filter_sublist _) h2⟩
      · exact ⟨selfFree_of_sublist (List.filter_sublist _) h1,
          dupFree_of_sublist (List.filter_sublist _) h2⟩
  | setSwitch n v => exact ⟨h1, h2⟩
  | reset => exact ⟨selfFree_nil, dupFree_nil⟩

/-- C8: every sequence of public operations maintains the connection-list
invariant: no connection is a self-edge and no two connections coincide
as unordered pairs.  `addConnection` is the only inserter and guards
both properties; the removal operations only filter; nothing else
touches the connection list. -/
theorem C8_connection_invariant (ops : List Op) :
    selfFree (runOps ops).connections ∧ dupFree (runOps ops).connections := by
  suffices H : ∀ (l : List Op) (m : Manager),
      selfFree m.connections → dupFree m.connections →
      selfFree (l.foldl applyOp m).connections ∧ dupFree (l.foldl applyOp m).connections by
    exact H ops initManager selfFree_nil dupFree_nil
  intro l
  induction l with
  | nil => exact fun m hm1 hm2 => ⟨hm1, hm2⟩
  | cons op rest ih =>
      intro m hm1 hm2
      obtain ⟨g1, g2⟩ := applyOp_connInv m op hm1 hm2
      exact ih (applyOp m op) g1 g2

theorem keysOK_recordCycle (node n : String) (st : DfsSt) (h : keysOK st.cycles) :
    keysOK (recordCycle node n st).cycles := by
  unfold recordCycle
  dsimp only
  split
  · split
    · split
      · exact h
      · next hany =>
          show keysOK (st.cycles ++
            [n :: (walkParents st.parentMap (st.parentMap.length + 1) (some node) n []).2])
          rw [keysOK, List.pairwise_append]
          refine ⟨h, List.pairwise_singleton _ _, ?_⟩
          intro c₁ hc₁ c₂ hc₂
          rw [List.mem_singleton.mp hc₂]
          intro he
          exact (List.any_eq_false.mp (Bool.eq_false_iff.mpr hany) c₁ hc₁)
            (beq_iff_eq.mpr he)
    · exact h
  · exact h

theorem keysOK_dfsStep (conns : List (String × String)) :
    ∀ (fuel : Nat) (stack : List (String × List String)) (st : DfsSt),
      keysOK st.cycles → keysOK (dfsStep conns fuel stack st).cycles := by
  intro fuel
  induction fuel with
  | zero => exact fun stack st h => h
  | succ f ih =>
      intro stack st h
      cases stack with
      | nil => exact h
      | cons frame rest =>
          obtain ⟨node, ns⟩ := frame
          cases ns with
          | nil => exact ih rest { st with recStack := st.recStack.erase node } h
          | cons n ns' =>
              have hstep : dfsStep conns (f + 1) ((node, n :: ns') :: rest) st =
                  (if List.lookup node st.parentMap = some n then
                    dfsStep conns f ((node, ns') :: rest) st
                  else if n ∈ st.recStack then
                    dfsStep conns f ((node, ns') :: rest) (recordCycle node n st)
                  else if n ∈ st.visited then
                    dfsStep conns f ((node, ns') :: rest) st
                  else
                    dfsStep conns f ((n, getNeighbors conns n) :: (node, ns') :: rest)
                      { st with
                          parentMap := assocSet st.parentMap n node,
                          visited := setAdd st.visited n,
                          recStack := setAdd st.recStack n }) := rfl
              rw [hstep]
              split_ifs with hp hr hv
              · exact ih _ _ h
              · exact ih _ _ (keysOK_recordCycle node n st h)
              · exact ih _ _ h
              · exact ih _ _ h

theorem keysOK_runRoots (conns : List (String × String)) (fuel : Nat) :
    ∀ (roots : List String) (st : DfsSt),
      keysOK st.cycles → keysOK (runRoots conns fuel roots st).cycles := by
  intro roots
  induction roots with
  | nil => exact fun st h => h
  | cons r rs ih =>
      intro st h
      have hstep : runRoots conns fuel (r :: rs) st =
          runRoots conns fuel rs
            (if r ∈ st.visited then st
             else dfsStep conns fuel [(r, getNeighbors conns r)]
               { st with visited := setAdd st.visited r,
                         recStack := setAdd st.recStack r }) := rfl
      rw [hstep]
      apply ih
      split
      · exact h
      · exact keysOK_dfsStep conns fuel _ _ h

/-- C2 amended: the cycles returned by `findCycles` have pairwise
distinct normalized keys (identifiers sorted and comma-joined), the
dedup guarantee the source actually maintains; in particular no two
returned cycles have the same identifier set.  The rest of the original
claim (every simple cycle returned, independence of registration order)
fails: see the counterexample. -/
theorem C2_amended (m : Manager) : keysOK (findCycles m) := by
  unfold findCycles
  dsimp only
  exact keysOK_runRoots m.connections _ m.components _ List.Pairwise.nil

theorem mem_getNeighbors {conns : List (String × String)} {x y : String}
    (h : x ∈ getNeighbors conns y) : isEndpoint conns x ∧ isEndpoint conns y := by
  unfold getNeighbors at h
  rw [List.mem_filterMap] at h
  obtain ⟨c, hc, hfc⟩ := h
  by_cases h1 : (c.1 == y) = true
  · rw [if_pos h1] at hfc
    injection hfc with he
    exact ⟨⟨c, hc, Or.inr he⟩, ⟨c, hc, Or.inl (beq_iff_eq.mp h1)⟩⟩
  · rw [if_neg h1] at hfc
    by_cases h2 : (c.2 == y) = true
    · rw [if_pos h2] at hfc
      injection hfc with he
      exact ⟨⟨c, hc, Or.inl he⟩, ⟨c, hc, Or.inr (beq_iff_eq.mp h2)⟩⟩
    · rw [if_neg h2] at hfc
      cases hfc

theorem lookup_mem {l : List (String × String)} {k v : String}
    (h : List.lookup k l = some v) : (k, v) ∈ l := by
  induction l with
  | nil => cases h
  | cons p ps ih =>
      obtain ⟨k', v'⟩ := p
      by_cases hk : k = k'
      · subst hk
        simp only [List.lookup, beq_self_eq_true] at h
        injection h with h'
        rw [← h']
        exact List.mem_cons_self _ _
      · have hkf : (k == k') = false := beq_eq_false_iff_ne.mpr hk
        simp only [List.lookup, hkf] at h
        exact List.mem_cons_of_mem _ (ih h)

theorem pmOK_assocSet {conns : List (String × String)} {k v : String}
    (hk : isEndpoint conns k) (hv : isEndpoint conns v) :
    ∀ pm, pmOK conns pm → pmOK conns (assocSet pm k v) := by
  intro pm
  induction pm with
  | nil =>
      intro _ p hp
      rw [show assocSet [] k v = [(k, v)] from rfl, List.mem_singleton] at hp
      subst hp
      exact ⟨hk, hv⟩
  | cons q qs ih =>
      obtain ⟨k', v'⟩ := q
      intro h p hp
      unfold assocSet at hp
      by_cases hkk : k' = k
      · rw [if_pos hkk] at hp
        rcases List.mem_cons.mp hp with rfl | hp'
        · exact ⟨hk, hv⟩
        · exact h _ (List.mem_cons_of_mem _ hp')
      · rw [if_neg hkk] at hp
        rcases List.mem_cons.mp hp with rfl | hp'
        · exact h _ (List.mem_cons_self _ _)
        · exact ih (fun r hr => h r (List.mem_cons_of_mem _ hr)) p hp'

theorem walkParents_endpoints {conns pm : List (String × String)}
    (hpm : pmOK conns pm) (tgt : String) :
    ∀ (fuel : Nat) (cur : Option String) (acc : List String),
      (∀ x, cur = some x → isEndpoint conns x) →
      (∀ x ∈ acc, isEndpoint conns x) →
      ∀ x ∈ (walkParents pm fuel cur tgt acc).2, isEndpoint conns x := by
  intro fuel
  induction fuel with
  | zero => exact fun cur acc _ hacc => hacc
  | succ f ih =>
      intro cur acc hcur hacc
      cases cur with
      | none => exact hacc
      | some c =>
          have hstep : walkParents pm (f + 1) (some c) tgt acc =
              (if c = tgt then (some c, acc)
               else walkParents pm f (List.lookup c pm) tgt (c :: acc)) := rfl
          by_cases hc : c = tgt
          · rw [hstep, if_pos hc]
            exact hacc
          · rw [hstep, if_neg hc]
            apply ih
            · intro x hx
              exact (hpm _ (lookup_mem hx)).2
            · intro x hx
              rcases List.mem_cons.mp hx with rfl | hx'
              · exact hcur x rfl
              · exact hacc x hx'

theorem recordCycle_parentMap (node n : String) (st : DfsSt) :
    (recordCycle node n st).parentMap = st.parentMap := by
  unfold recordCycle
  dsimp only
  split
  · split
    · split
      · rfl
      · rfl
    · rfl
  · rfl

theorem cyclesOK_recordCycle {conns : List (String × String)} {node n : String}
    {st : DfsSt} (hpm : pmOK conns st.parentMap) (hnode : isEndpoint conns node)
    (hn : isEndpoint conns n) (hcy : cyclesOK conns st.cycles) :
    cyclesOK conns (recordCycle node n st).cycles := by
  unfold recordCycle
  dsimp only
  split
  · split
    · split
      · exact hcy
      · show cyclesOK conns (st.cycles ++
          [n :: (walkParents st.parentMap (st.parentMap.length + 1) (some node) n []).2])
        intro cyc hcyc
        rcases List.mem_append.mp hcyc with hold | hnew
        · exact hcy cyc hold
        · rw [List.mem_singleton.mp hnew]
          intro x hx
          rcases List.mem_cons.mp hx with rfl | hx'
          · exact hn
          · refine walkParents_endpoints hpm n _ (some node) [] ?_ ?_ x hx'
            · intro y hy
              injection hy with hy'
              exact hy' ▸ hnode
            · intro y hy
              cases hy
    · exact hcy
  · exact hcy

theorem dfsStep_endpoints (conns : List (String × String)) :
    ∀ (fuel : Nat) (stack : List (String × List String)) (st : DfsSt),
      stackOK conns stack → pmOK conns st.parentMap → cyclesOK conns st.cycles →
      pmOK conns (dfsStep conns fuel stack st).parentMap ∧
        cyclesOK conns (dfsStep conns fuel stack st).cycles := by
  intro fuel
  induction fuel with
  | zero => exact fun stack st _ hpm hcy => ⟨hpm, hcy⟩
  | succ f ih =>
      intro stack st hstack hpm hcy
      cases stack with
      | nil => exact ⟨hpm, hcy⟩
      | cons frame rest =>
          obtain ⟨node, ns⟩ := frame
          have hrest : stackOK conns rest :=
            fun fr hfr => hstack fr (List.mem_cons_of_mem _ hfr)
          cases ns with
          | nil => exact ih rest { st with recStack := st.recStack.erase node } hrest hpm hcy
          | cons n ns' =>
              have hfr := hstack (node, n :: ns') (List.mem_cons_self _ _)
              have hn : isEndpoint conns n := hfr.1 n (List.mem_cons_self _ _)
              have hnode : isEndpoint conns node := hfr.2 (List.cons_ne_nil n ns')
              have hstack' : stackOK conns ((node, ns') :: rest) := by
                intro fr hfr2
                rcases List.mem_cons.mp hfr2 with rfl | hfr2'
                · exact ⟨fun x hx => hfr.1 x (List.mem_cons_of_mem _ hx), fun _ => hnode⟩
                · exact hstack fr (List.mem_cons_of_mem _ hfr2')
              have hstep : dfsStep conns (f + 1) ((node, n :: ns') :: rest) st =
                  (if List.lookup node st.parentMap = some n then
                    dfsStep conns f ((node, ns') :: rest) st
                  else if n ∈ st.recStack then
                    dfsStep conns f ((node, ns') :: rest) (recordCycle node n st)
                  else if n ∈ st.visited then
                    dfsStep conns f ((node, ns') :: rest) st
                  else
                    dfsStep conns f ((n, getNeighbors conns n) :: (node, ns') :: rest)
                      { st with
                          parentMap := assocSet st.parentMap n node,
                          visited := setAdd st.visited n,
                          recStack := setAdd st.recStack n }) := rfl
              rw [hstep]
              split_ifs with hp hr hv
              · exact ih _ _ hstack' hpm hcy
              · refine ih _ _ hstack' ?_ ?_
                · rw [recordCycle_parentMap]
                  exact hpm
                · exact cyclesOK_recordCycle hpm hnode hn hcy
              · exact ih _ _ hstack' hpm hcy
              · refine ih _ _ ?_ ?_ ?_
                · intro fr hfr2
                  rcases List.mem_cons.mp hfr2 with rfl | hfr2'
                  · exact ⟨fun x hx => (mem_getNeighbors hx).1, fun _ => hn⟩
                  · exact hstack' fr hfr2'
                · exact pmOK_assocSet hn hnode st.parentMap hpm
                · exact hcy

theorem runRoots_endpoints (conns : List (String × String)) (fuel : Nat) :
    ∀ (roots : List String) (st : DfsSt),
      pmOK conns st.parentMap → cyclesOK conns st.cycles →
      cyclesOK conns (runRoots conns fuel roots st).cycles := by
  intro roots
  induction roots with
  | nil => exact fun st _ hcy => hcy
  | cons r rs ih =>
      intro st hpm hcy
      have hstep : runRoots conns fuel (r :: rs) st =
          runRoots conns fuel rs
            (if r ∈ st.visited then st
             else dfsStep conns fuel [(r, getNeighbors conns r)]
               { st with visited := setAdd st.visited r,
                         recStack := setAdd st.recStack r }) := rfl
      by_cases hr : r ∈ st.visited
      · rw [hstep, if_pos hr]
        exact ih st hpm hcy
      · rw [hstep, if_neg hr]
        have hstack0 : stackOK conns [(r, getNeighbors conns r)] := by
          intro fr hfr
          rw [List.mem_singleton] at hfr
          subst hfr
          refine ⟨fun x hx => (mem_getNeighbors hx).1, fun hne => ?_⟩
          obtain ⟨x, hx⟩ := List.exists_mem_of_ne_nil _ hne
          exact (mem_getNeighbors hx).2
        have hd := dfsStep_endpoints conns fuel [(r, getNeighbors conns r)]
          { st with visited := setAdd st.visited r, recStack := setAdd st.recStack r }
          hstack0 hpm hcy
        exact ih _ hd.1 hd.2

/-- Every identifier appearing in any cycle returned by `findCycles` is
an endpoint of some current connection. -/
theorem findCycles_endpoints (m : Manager) :
    ∀ cyc ∈ findCycles m, ∀ x ∈ cyc, isEndpoint m.connections x := by
  unfold findCycles
  dsimp only
  exact runRoots_endpoints m.connections _ m.components _
    (fun p hp => absurd hp (List.not_mem_nil p))
    (fun cyc hc => absurd hc (List.not_mem_nil cyc))

/-- C6 amended: `unregisterComponent(id)` takes effect only for an
instance-registered id.  For such an id, with a duplicate-free
components list and at least one connection touching id (so that the
recompute actually runs), the call removes id from the components list,
removes every connection with id as an endpoint, leaves a powered map
in which looking id up yields false, and no cycle found afterwards
contains id.  For an id without a registered instance (such as one
auto-created by `addConnection`) the call is a complete no-op. -/
theorem C6_amended (m : Manager) (id : String)
    (h1 : (List.lookup id m.componentInstances).isSome = true)
    (h2 : m.components.Nodup)
    (h3 : m.connections.any (touches id) = true) :
    id ∉ (unregisterComponent m id).components ∧
    (∀ c ∈ (unregisterComponent m id).connections, touches id c = false) ∧
    getPowered (unregisterComponent m id) id = false ∧
    (∀ cyc ∈ findCycles (unregisterComponent m id), id ∉ cyc) := by
  have hu : unregisterComponent m id = recompute { m with
      componentInstances := m.componentInstances.eraseP fun p => p.1 == id,
      components := m.components.erase id,
      connections := m.connections.filter fun c => !(touches id c) } := by
    unfold unregisterComponent
    rw [if_pos h1]
    unfold removeConnections
    dsimp only
    rw [if_pos (length_filter_lt_of_any h3)]
  have hcomps : (unregisterComponent m id).components = m.components.erase id := by
    rw [hu, recompute_components]
  have hconns : (unregisterComponent m id).connections
      = m.connections.filter fun c => !(touches id c) := by
    rw [hu, recompute_connections]
  have hnotmem : id ∉ m.components.erase id := by
    intro hmem
    exact ((List.Nodup.mem_erase_iff h2).mp hmem).1 rfl
  have hconnsfree : ∀ c ∈ (unregisterComponent m id).connections, touches id c = false := by
    intro c hc
    rw [hconns] at hc
    have := (List.mem_filter.mp hc).2
    rwa [Bool.not_eq_true'] at this
  refine ⟨?_, hconnsfree, ?_, ?_⟩
  · rw [hcomps]
    exact hnotmem
  · show (List.lookup id (unregisterComponent m id).powered).getD false = false
    rw [hu]
    rw [show (recompute { m with
        componentInstances := m.componentInstances.eraseP fun p => p.1 == id,
        components := m.components.erase id,
        connections := m.connections.filter fun c => !(touches id c) }).powered
      = (m.components.erase id).map (fun n => (n,
          (poweredSet (m.componentInstances.eraseP fun p => p.1 == id)
            m.switchStatus
            (findCycles { m with
              componentInstances := m.componentInstances.eraseP fun p => p.1 == id,
              components := m.components.erase id,
              connections := m.connections.filter fun c => !(touches id c) })).contains n))
      from rfl]
    rw [lookup_map_of_not_mem _ hnotmem]
    rfl
  · intro cyc hcyc hidmem
    have hep := findCycles_endpoints (unregisterComponent m id) cyc hcyc id hidmem
    obtain ⟨c, hc, hor⟩ := hep
    have hfalse := hconnsfree c hc
    have htrue : touches id c = true := by
      unfold touches
      rcases hor with h' | h'
      · rw [h']
        simp
      · rw [h']
        simp
    rw [hfalse] at htrue
    exact Bool.false_ne_true htrue

/-- C6 amended, witness: two registered connected components; after
unregistering a, nothing refers to a any more. -/
theorem C6_amended_witness :
    "a" ∉ (unregisterComponent mW "a").components ∧
    (∀ c ∈ (unregisterComponent mW "a").connections, touches "a" c = false) ∧
    getPowered (unregisterComponent mW "a") "a" = false ∧
    (∀ cyc ∈ findCycles (unregisterComponent mW "a"), "a" ∉ cyc) :=
  C6_amended mW "a" (by decide) (by decide) (by decide)

end Circuit
